import Mathlib

/-!
Shallow embedding of `src/helix-term/src/commands/typed/harpoon.rs`
(arexon/helix): a per-project, index-addressed bookmark store.

Paths are modelled as `String`, the filesystem-existence check as a boolean
oracle `String → Bool`, and the current working directory as an explicit
parameter (the Rust code reads it from `helix_stdx::env::current_working_dir()`
on every `Store::project` call).  The backing file together with
serde_json (de)serialization is modelled by `BackingFile`: serde round-trips
every value of the serialized type without any validation, so a well-formed
file is modelled as `BackingFile.stored s` for the `Store` value `s` it
encodes, and a file whose contents fail to deserialize as `.corrupt`.
`HashMap` contents are modelled as association lists whose key order is
arbitrary (a hash map's iteration order is unspecified); hash-map key
uniqueness appears as `Nodup` hypotheses where an arbitrary list stands for a
map.
-/

deriving instance DecidableEq for Except

namespace Harpoon

/-- `usize` bound of the reference 64-bit target: `usize::MAX = 2^64 - 1`. -/
def USIZE_MAX : Nat := 2 ^ 64 - 1

/-- One serialized selection range: `struct Span { start: usize, end: usize }`. -/
structure Span where
  start : Nat
  «end» : Nat
deriving DecidableEq, Repr

/-- Modelled from the spec: one selection range of the host editor
(helix-core `Range`, not under `src/`), "each with an anchor and head offset". -/
structure Range where
  anchor : Nat
  head : Nat
deriving DecidableEq, Repr

/-- Modelled from the spec: the host editor's selection (helix-core
`Selection`, not under `src/`): "an ordered set of ranges over a document's
content, with one designated primary range"; the codec over it is "pure,
stateless" and order-preserving. -/
structure Selection where
  ranges : List Range
  primary_index : Nat
deriving DecidableEq, Repr

/-- Modelled from the spec: `Selection::new(ranges, primary_index)` of the
host editor, packaging an ordered list of ranges with a primary index. -/
def Selection.new (ranges : List Range) (primary_index : Nat) : Selection :=
  ⟨ranges, primary_index⟩

/-- `struct File { path: Cow<Path>, spans: SmallVec<[Span; 1]> }` — one
bookmarked location (path plus restorable selection). -/
structure File where
  path : String
  spans : List Span
deriving DecidableEq, Repr

/-- `File::new(path, selection)`: one `Span` per selection range, in range
order; `start` is the range's anchor, `end` its head. -/
def File.new (path : String) (selection : Selection) : File :=
  { path := path
    spans := selection.ranges.map (fun range => { start := range.anchor, «end» := range.head }) }

/-- `File::update_selection(selection)`: replaces the spans wholesale from the
selection; the path is untouched. -/
def File.update_selection (f : File) (selection : Selection) : File :=
  { f with spans := selection.ranges.map (fun range => { start := range.anchor, «end» := range.head }) }

/-- `File::as_selection()`: rebuild a selection from the spans, anchor from
`start`, head from `end`, primary index 0. -/
def File.as_selection (f : File) : Selection :=
  Selection.new (f.spans.map (fun span => Range.mk span.start span.«end»)) 0

/-- Association-list lookup, modelling `HashMap::get`. -/
def lookupKey {α β : Type} [DecidableEq α] : List (α × β) → α → Option β
  | [], _ => none
  | (k', v) :: t, k => if k' = k then some v else lookupKey t k

/-- Association-list upsert, modelling `HashMap::insert`: replaces the value
at an existing key in place, otherwise appends the new entry. -/
def insertKey {α β : Type} [DecidableEq α] : List (α × β) → α → β → List (α × β)
  | [], k, v => [(k, v)]
  | (k', v') :: t, k, v => if k' = k then (k', v) :: t else (k', v') :: insertKey t k v

/-- Association-list removal, modelling `HashMap::remove` (keys are unique in
a hash map, so removing the first occurrence is removal). -/
def eraseKey {α β : Type} [DecidableEq α] : List (α × β) → α → List (α × β)
  | [], _ => []
  | (k', v') :: t, k => if k' = k then t else (k', v') :: eraseKey t k

/-- `struct Project { files: HashMap<usize, File> }` — one project's slot
table. -/
structure Project where
  files : List (Nat × File)
deriving DecidableEq, Repr

instance : Inhabited Project := ⟨⟨[]⟩⟩

/-- `struct Store { projects: HashMap<PathBuf, Project> }`. -/
structure Store where
  projects : List (String × Project)
deriving DecidableEq, Repr

instance : Inhabited Store := ⟨⟨[]⟩⟩

/-- The table `Store::project()` hands out for a working directory: the stored
one, or an empty default when absent. -/
def Store.projectTable (s : Store) (cwd : String) : Project :=
  (lookupKey s.projects cwd).getD ⟨[]⟩

/-- The state effect of `Store::project()` followed by mutating the returned
`&mut Project` by `g`: `self.projects.entry(cwd).or_default()` inserts a
default table when the key is absent, and the mutation lands at that key. -/
def Store.modifyProject (s : Store) (cwd : String) (g : Project → Project) : Store :=
  ⟨insertKey s.projects cwd (g (s.projectTable cwd))⟩

/-- State effect of a bare `Store::project()` call (no mutation of the
returned table): an upsert of the current table at `cwd`. -/
def Store.upsertProject (s : Store) (cwd : String) : Store :=
  s.modifyProject cwd (fun p => p)

/-- `Store::set_file(index, file)`: insert/overwrite in the current project's
table. -/
def Store.set_file (s : Store) (cwd : String) (index : Nat) (file : File) : Store :=
  s.modifyProject cwd (fun p => ⟨insertKey p.files index file⟩)

/-- `Store::remove_file(index)`: remove and return the prior record, if any;
the store is the one after `project()`'s upsert and the removal. -/
def Store.remove_file (s : Store) (cwd : String) (index : Nat) : Option File × Store :=
  (lookupKey (s.projectTable cwd).files index,
   s.modifyProject cwd (fun p => ⟨eraseKey p.files index⟩))

/-- `Store::file(index)`: look up by index in the current project's table and
filter out a record whose path no longer exists on the filesystem
(`file.filter(|file| file.path.exists())`); `fsExists` is the
filesystem-existence oracle.  The store component records `project()`'s
upsert — nothing else is touched. -/
def Store.file (s : Store) (cwd : String) (fsExists : String → Bool) (index : Nat) :
    Option File × Store :=
  ((lookupKey (s.projectTable cwd).files index).filter (fun file => fsExists file.path),
   s.upsertProject cwd)

/-- The backing file at `helix_loader::harpoon_store_file()`, as seen through
`std::fs::read_to_string` and serde_json: `absent` (read fails with
`NotFound`), `unreadable` (read fails otherwise), `corrupt` (read succeeds,
deserialization fails), or `stored s` (read succeeds and deserializes to `s`;
serde imposes no validation beyond the shape of the types, so every `Store`
value is representable). -/
inductive BackingFile where
  | absent
  | unreadable
  | corrupt
  | stored (s : Store)
deriving DecidableEq

/-- `Store::open()`: absent file yields the default (empty) store; a read
error other than `NotFound` or a deserialization failure is an error; a
well-formed file yields exactly the store it encodes. -/
def Store.«open» : BackingFile → Except String Store
  | .absent => .ok ⟨[]⟩
  | .unreadable => .error "cannot access harpoon store file"
  | .corrupt => .error "deserialization error"
  | .stored s => .ok s

/-- Value of an unsigned decimal digit run, most significant first. -/
def digitsToNat (cs : List Char) : Nat :=
  cs.foldl (fun acc c => acc * 10 + (c.toNat - 48)) 0

/-- `true` iff `cs` is a non-empty run of ASCII decimal digits. -/
def isDigitRun (cs : List Char) : Bool :=
  !cs.isEmpty && cs.all Char.isDigit

/-- The optional leading `+` sign Rust's unsigned `FromStr` accepts. -/
def stripSign (cs : List Char) : List Char :=
  match cs with
  | '+' :: t => t
  | cs => cs

/-- Rust's `str::parse::<usize>()` (`u64::from_str` on the 64-bit reference
target): an optional leading `+` sign followed by one or more ASCII decimal
digits, rejecting the empty string, any other character (including a leading
`-` on unsigned types), and any value above `usize::MAX` (overflow). -/
def parseUsize (s : String) : Option Nat :=
  let cs := stripSign s.data
  if isDigitRun cs then
    if digitsToNat cs ≤ USIZE_MAX then some (digitsToNat cs) else none
  else none

/-- `fn index(arg: Option<&Cow<str>>) -> anyhow::Result<usize>`: a missing
argument is "index not provided", a failed `usize` parse is "index must be an
integer". -/
def index (arg : Option String) : Except String Nat :=
  match arg with
  | none => .error "index not provided"
  | some s =>
    match parseUsize s with
    | some n => .ok n
    | none => .error "index must be an integer"

/-- Modelled from the spec: the host's prompt event
(helix-term `PromptEvent`, not under `src/`); commands act only on
`Validate`, a no-op on other events. -/
inductive PromptEvent where
  | abort
  | update
  | validate
deriving DecidableEq

/-- The active document as the commands consume it: its optional backing path
(`doc.path()`) and its current selection (`doc.selection(view.id)`). -/
structure Document where
  path : Option String
  selection : Selection
deriving DecidableEq

/-- Modelled from the spec: `helix_stdx::path::get_relative_path` (not under
`src/`): "produce a path relative to the current working directory when the
given path is inside it; otherwise return the path unchanged"; pure, no side
effects. -/
def get_relative_path (cwd path : String) : String :=
  if (cwd.data ++ ['/']).isPrefixOf path.data
  then ⟨path.data.drop (cwd.data.length + 1)⟩
  else path

/-- Observable effects of one command invocation: `saved` is the store value
written by `Store::save` if a save happened, `status` a
`cx.editor.set_status` message, `errMsg` a non-fatal `cx.editor.set_error`
message, `opened` the path the editor was told to open together with the
selection restored on it, and `popup` the rendered listing handed to the
deferred popup job. -/
structure Effects where
  saved : Option Store := none
  status : Option String := none
  errMsg : Option String := none
  opened : Option (String × Selection) := none
  popup : Option String := none
deriving DecidableEq

/-- `pub fn set`: no-op unless `Validate`; parse the index; require a backing
path; normalize it; build a record; upsert; save; report
`'{path}' added to #{index}`. -/
def set (event : PromptEvent) (args : List String) (doc : Document) (cwd : String)
    (backing : BackingFile) : Except String Effects :=
  if event ≠ PromptEvent.validate then .ok {} else
  match index args.head? with
  | .error e => .error e
  | .ok i =>
    match doc.path with
    | none => .error "current document has no path"
    | some p =>
      let path := get_relative_path cwd p
      match Store.«open» backing with
      | .error e => .error e
      | .ok store =>
        let store := store.set_file cwd i (File.new path doc.selection)
        .ok { saved := some store
              status := some ("'" ++ path ++ "' added to #" ++ toString i) }

/-- `pub fn get`: no-op unless `Validate`; parse the index; look up via
`Store::file` (which filters stale paths); absent or stale ⇒ plain `Ok(())`;
otherwise open the path and restore `as_selection()`.  No save. -/
def get (event : PromptEvent) (args : List String) (cwd : String)
    (fsExists : String → Bool) (backing : BackingFile) : Except String Effects :=
  if event ≠ PromptEvent.validate then .ok {} else
  match index args.head? with
  | .error e => .error e
  | .ok i =>
    match Store.«open» backing with
    | .error e => .error e
    | .ok store =>
      match (store.file cwd fsExists i).1 with
      | none => .ok {}
      | some file => .ok { opened := some (file.path, file.as_selection) }

/-- `pub fn remove`: no-op unless `Validate`; parse the index; if a record was
removed, report `'{path}' removed from #{index}` and save; otherwise the
non-fatal error `No file assigned to #{index}` and no save. -/
def remove (event : PromptEvent) (args : List String) (cwd : String)
    (backing : BackingFile) : Except String Effects :=
  if event ≠ PromptEvent.validate then .ok {} else
  match index args.head? with
  | .error e => .error e
  | .ok i =>
    match Store.«open» backing with
    | .error e => .error e
    | .ok store =>
      match store.remove_file cwd i with
      | (some file, store) =>
        .ok { status := some ("'" ++ file.path ++ "' removed from #" ++ toString i)
              saved := some store }
      | (none, _) =>
        .ok { errMsg := some ("No file assigned to #" ++ toString i) }

/-- `find(|file| file.path == path)` + `update_selection` over a table's
values in iteration order: replace the spans of the first record whose path
equals `path`, leave everything else alone. -/
def updateFirst (files : List (Nat × File)) (path : String) (selection : Selection) :
    List (Nat × File) :=
  match files with
  | [] => []
  | (i, f) :: t =>
    if f.path = path then (i, f.update_selection selection) :: t
    else (i, f) :: updateFirst t path selection

/-- `pub fn update`: no-op unless `Validate`; a pathless document is a silent
no-op; otherwise normalize the path, update the first matching record's
selection (if any), and save unconditionally. -/
def update (event : PromptEvent) (doc : Document) (cwd : String)
    (backing : BackingFile) : Except String Effects :=
  if event ≠ PromptEvent.validate then .ok {} else
  match doc.path with
  | none => .ok {}
  | some p =>
    let path := get_relative_path cwd p
    match Store.«open» backing with
    | .error e => .error e
    | .ok store =>
      let store := store.modifyProject cwd
        (fun project => ⟨updateFirst project.files path doc.selection⟩)
      .ok { saved := some store }

/-- The sort step of `pub fn list`:
`files.sort_by(|(a_index, _), (b_index, _)| a_index.cmp(b_index))` — the
current project's entries, stably sorted by index ascending. -/
def listEntries (p : Project) : List (Nat × File) :=
  List.insertionSort (fun a b => a.1 ≤ b.1) p.files

/-- One rendered listing line, `writeln!(output, "{}. {}", index, path)`
without its trailing newline. -/
def renderLine (e : Nat × File) : String :=
  toString e.1 ++ ". " ++ e.2.path

/-- The rendered listing of `pub fn list`: the fold of `writeln!` over the
sorted entries. -/
def listContents (cwd : String) (s : Store) : String :=
  (listEntries (s.projectTable cwd)).foldl (fun output e => output ++ (renderLine e ++ "\n")) ""

/-- `pub fn list`: no-op unless `Validate`; render the current project's
sorted listing and hand it to the deferred popup job.  No save. -/
def list (event : PromptEvent) (cwd : String) (backing : BackingFile) :
    Except String Effects :=
  if event ≠ PromptEvent.validate then .ok {} else
  match Store.«open» backing with
  | .error e => .error e
  | .ok store => .ok { popup := some (listContents cwd store) }

/-! ## Helper lemmas -/

theorem stripSign_eq_of_digitRun (cs : List Char) (h : isDigitRun cs = true) :
    stripSign cs = cs := by
  unfold stripSign
  split
  · rename_i t
    simp [isDigitRun, Char.isDigit] at h
  · rfl

theorem map_anchor_head_eq_id :
    (fun (r : Range) => Range.mk r.anchor r.head) = id :=
  funext fun _ => rfl

theorem lookupKey_insertKey_self {α β : Type} [DecidableEq α]
    (l : List (α × β)) (k : α) (v : β) :
    lookupKey (insertKey l k v) k = some v := by
  induction l with
  | nil => simp [insertKey, lookupKey]
  | cons e t ih =>
    obtain ⟨k', v'⟩ := e
    by_cases hk : k' = k <;> simp [insertKey, lookupKey, hk, ih]

theorem lookupKey_insertKey_ne {α β : Type} [DecidableEq α]
    (l : List (α × β)) (k k' : α) (v : β) (h : k' ≠ k) :
    lookupKey (insertKey l k v) k' = lookupKey l k' := by
  induction l with
  | nil => simp [insertKey, lookupKey, Ne.symm h]
  | cons e t ih =>
    obtain ⟨k₀, v₀⟩ := e
    by_cases hk : k₀ = k
    · subst hk
      simp [insertKey, lookupKey, Ne.symm h]
    · simp [insertKey, lookupKey, hk, ih]

theorem insertKey_lookupKey_eq {α β : Type} [DecidableEq α]
    (l : List (α × β)) (k : α) (v : β) (h : lookupKey l k = some v) :
    insertKey l k v = l := by
  induction l with
  | nil => simp [lookupKey] at h
  | cons e t ih =>
    obtain ⟨k₀, v₀⟩ := e
    by_cases hk : k₀ = k
    · subst hk
      simp [lookupKey] at h
      simp [insertKey, h]
    · simp [lookupKey, hk] at h
      simp [insertKey, hk, ih h]

theorem lookupKey_mem {α β : Type} [DecidableEq α]
    {l : List (α × β)} {k : α} {v : β} (h : lookupKey l k = some v) :
    (k, v) ∈ l := by
  induction l with
  | nil => simp [lookupKey] at h
  | cons e t ih =>
    obtain ⟨k₀, v₀⟩ := e
    by_cases hk : k₀ = k
    · subst hk
      simp [lookupKey] at h
      simp [h]
    · simp [lookupKey, hk] at h
      simp [ih h]

theorem lookupKey_none_of_not_memKeys {α β : Type} [DecidableEq α]
    (l : List (α × β)) (k : α) (h : k ∉ l.map Prod.fst) :
    lookupKey l k = none := by
  induction l with
  | nil => rfl
  | cons e t ih =>
    obtain ⟨k₀, v₀⟩ := e
    simp only [List.map_cons, List.mem_cons] at h
    push_neg at h
    simp [lookupKey, Ne.symm h.1, ih h.2]

theorem lookupKey_eraseKey_self {α β : Type} [DecidableEq α]
    (l : List (α × β)) (k : α) (hnd : (l.map Prod.fst).Nodup) :
    lookupKey (eraseKey l k) k = none := by
  induction l with
  | nil => simp [eraseKey, lookupKey]
  | cons e t ih =>
    obtain ⟨k₀, v₀⟩ := e
    simp only [List.map_cons, List.nodup_cons] at hnd
    by_cases hk : k₀ = k
    · subst hk
      have herase : eraseKey ((k₀, v₀) :: t) k₀ = t := by simp [eraseKey]
      rw [herase]
      exact lookupKey_none_of_not_memKeys t k₀ hnd.1
    · rw [eraseKey]
      simp [hk, lookupKey, ih hnd.2]

theorem Store.projectTable_modifyProject_self (s : Store) (cwd : String)
    (g : Project → Project) :
    (s.modifyProject cwd g).projectTable cwd = g (s.projectTable cwd) := by
  simp [Store.modifyProject, Store.projectTable, lookupKey_insertKey_self]

theorem Store.projectTable_modifyProject_ne (s : Store) (cwd root : String)
    (g : Project → Project) (h : root ≠ cwd) :
    (s.modifyProject cwd g).projectTable root = s.projectTable root := by
  simp [Store.modifyProject, Store.projectTable, lookupKey_insertKey_ne _ _ _ _ h]

theorem Store.upsertProject_eq_of_lookup (s : Store) (cwd : String) (p : Project)
    (h : lookupKey s.projects cwd = some p) :
    s.upsertProject cwd = s := by
  obtain ⟨l⟩ := s
  simp only [Store.upsertProject, Store.modifyProject, Store.projectTable, h, Option.getD_some]
  rw [insertKey_lookupKey_eq _ _ _ h]

theorem Store.lookup_some_of_table_entry (s : Store) (cwd : String) (i : Nat) (f : File)
    (h : lookupKey (s.projectTable cwd).files i = some f) :
    lookupKey s.projects cwd = some (s.projectTable cwd) := by
  cases hl : lookupKey s.projects cwd with
  | some p => simp [Store.projectTable, hl]
  | none =>
    rw [Store.projectTable, hl, Option.getD_none] at h
    simp [lookupKey] at h

instance : IsTotal (Nat × File) (fun a b => a.1 ≤ b.1) :=
  ⟨fun a b => Nat.le_total a.1 b.1⟩

instance : IsTrans (Nat × File) (fun a b => a.1 ≤ b.1) :=
  ⟨fun _ _ _ hab hbc => Nat.le_trans hab hbc⟩

instance : IsAntisymm (Nat × File) (fun a b => a.1 < b.1) :=
  ⟨fun _ _ hab hba => absurd (Nat.lt_trans hab hba) (Nat.lt_irrefl _)⟩

theorem pairwise_and {α : Type} {R S : α → α → Prop} {l : List α}
    (h1 : l.Pairwise R) (h2 : l.Pairwise S) :
    l.Pairwise (fun a b => R a b ∧ S a b) := by
  induction l with
  | nil => exact List.Pairwise.nil
  | cons a t ih =>
    rcases List.pairwise_cons.mp h1 with ⟨hr, h1t⟩
    rcases List.pairwise_cons.mp h2 with ⟨hs, h2t⟩
    exact List.pairwise_cons.mpr ⟨fun b hb => ⟨hr b hb, hs b hb⟩, ih h1t h2t⟩

theorem listEntries_perm (p : Project) : (listEntries p).Perm p.files :=
  List.perm_insertionSort _ _

theorem listEntries_sorted (p : Project) :
    List.Sorted (fun a b => a.1 ≤ b.1) (listEntries p) :=
  List.sorted_insertionSort _ _

theorem sorted_lt_of_sorted_le_nodup (l : List (Nat × File))
    (hs : List.Sorted (fun a b => a.1 ≤ b.1) l) (hnd : (l.map Prod.fst).Nodup) :
    List.Sorted (fun a b => a.1 < b.1) l := by
  have hne : l.Pairwise (fun a b => a.1 ≠ b.1) := List.pairwise_map.mp hnd
  exact (pairwise_and hs hne).imp (fun h => Nat.lt_of_le_of_ne h.1 h.2)

theorem listEntries_eq_of_perm (p₁ p₂ : Project)
    (hperm : p₁.files.Perm p₂.files) (hnd : (p₁.files.map Prod.fst).Nodup) :
    listEntries p₁ = listEntries p₂ := by
  have h₁ : (listEntries p₁).Perm p₁.files := listEntries_perm p₁
  have h₂ : (listEntries p₂).Perm p₂.files := listEntries_perm p₂
  have hp : (listEntries p₁).Perm (listEntries p₂) :=
    h₁.trans (hperm.trans h₂.symm)
  have hnd₁ : ((listEntries p₁).map Prod.fst).Nodup :=
    ((h₁.map Prod.fst).nodup_iff).mpr hnd
  have hnd₂ : ((listEntries p₂).map Prod.fst).Nodup :=
    ((hp.map Prod.fst).nodup_iff).mp hnd₁
  exact List.eq_of_perm_of_sorted hp
    (sorted_lt_of_sorted_le_nodup _ (listEntries_sorted p₁) hnd₁)
    (sorted_lt_of_sorted_le_nodup _ (listEntries_sorted p₂) hnd₂)

/-! ## Claims -/

/-- C1: Selection round-trip — for every selection with at least one range,
`(File.new path sel).as_selection` is the selection with the same ranges (same
anchor/head offsets) in the same order and primary-range index 0. -/
theorem file_new_as_selection_roundtrip (path : String) (sel : Selection)
    (_h : sel.ranges ≠ []) :
    (File.new path sel).as_selection = Selection.new sel.ranges 0 := by
  simp [File.new, File.as_selection, Selection.new, List.map_map, Function.comp_def,
    map_anchor_head_eq_id]

/-- Witness for C1 at a two-range selection with unsorted, overlapping
ranges. -/
theorem file_new_as_selection_roundtrip_witness :
    (⟨[⟨5, 2⟩, ⟨1, 9⟩], 0⟩ : Selection).ranges ≠ [] ∧
    (File.new "a.txt" ⟨[⟨5, 2⟩, ⟨1, 9⟩], 0⟩).as_selection =
      Selection.new [⟨5, 2⟩, ⟨1, 9⟩] 0 :=
  ⟨by decide, file_new_as_selection_roundtrip "a.txt" ⟨[⟨5, 2⟩, ⟨1, 9⟩], 0⟩ (by decide)⟩

/-- C3: `Store::open()` yields the empty store exactly in the absent-file
case; an unreadable file or a failed deserialization is an error with no
partial recovery, and a well-formed file yields exactly the store it encodes,
unaltered. -/
theorem store_open_semantics :
    Store.«open» .absent = .ok ⟨[]⟩ ∧
    Store.«open» .unreadable = .error "cannot access harpoon store file" ∧
    Store.«open» .corrupt = .error "deserialization error" ∧
    ∀ s : Store, Store.«open» (.stored s) = .ok s :=
  ⟨rfl, rfl, rfl, fun _ => rfl⟩

/-- C9 (counterexample): a backing file holding a record with an empty
`spans` list deserializes successfully — `Store::open()` reconstructs the
store verbatim, so a record with empty spans is reachable through `open()`,
refuting the invariant as stated. -/
theorem spans_nonempty_open_counterexample :
    Store.«open» (.stored ⟨[("/p", ⟨[(1, ⟨"a", []⟩)]⟩)]⟩) =
      .ok ⟨[("/p", ⟨[(1, ⟨"a", []⟩)]⟩)]⟩ ∧
    lookupKey ((⟨[("/p", ⟨[(1, ⟨"a", []⟩)]⟩)]⟩ : Store).projectTable "/p").files 1 =
      some ⟨"a", []⟩ ∧
    (⟨"a", []⟩ : File).spans = [] :=
  ⟨rfl, by decide, rfl⟩

/-- C9 (amended): every record produced by `File::new` or
`File::update_selection` from a selection with at least one range has a
non-empty `spans` sequence; `Store::open` itself performs no validation. -/
theorem spans_nonempty_of_construction (path : String) (f : File) (sel : Selection)
    (h : sel.ranges ≠ []) :
    (File.new path sel).spans ≠ [] ∧ (f.update_selection sel).spans ≠ [] := by
  constructor <;> simpa [File.new, File.update_selection]

/-- Witness for C9's amended theorem at a one-range selection. -/
theorem spans_nonempty_of_construction_witness :
    (⟨[⟨3, 7⟩], 0⟩ : Selection).ranges ≠ [] ∧
    ((File.new "b" ⟨[⟨3, 7⟩], 0⟩).spans ≠ [] ∧
      ((⟨"c", [⟨0, 0⟩]⟩ : File).update_selection ⟨[⟨3, 7⟩], 0⟩).spans ≠ []) :=
  ⟨by decide, spans_nonempty_of_construction "b" ⟨"c", [⟨0, 0⟩]⟩ ⟨[⟨3, 7⟩], 0⟩ (by decide)⟩

/-- C10: the index parser follows Rust `usize` parsing — it accepts a leading
`+` sign (`"+3"` parses to 3), and every decimal digit string whose value
exceeds `usize::MAX` fails with "index must be an integer" despite being
numeric. -/
theorem index_parse_rust_usize :
    index (some "+3") = .ok 3 ∧
    ∀ s : String, isDigitRun s.data = true → USIZE_MAX < digitsToNat s.data →
      index (some s) = .error "index must be an integer" := by
  refine ⟨by decide, ?_⟩
  intro s hd hov
  have hp : parseUsize s = none := by
    rw [parseUsize]
    simp only [stripSign_eq_of_digitRun s.data hd, hd, if_true]
    rw [if_neg (Nat.not_le.mpr hov)]
  simp [index, hp]

/-- Witness for C10 at `usize::MAX + 1 = 2^64`, a 20-digit numeric string. -/
theorem index_parse_rust_usize_witness :
    isDigitRun (String.data "18446744073709551616") = true ∧
    USIZE_MAX < digitsToNat (String.data "18446744073709551616") ∧
    index (some "18446744073709551616") = .error "index must be an integer" :=
  ⟨by decide, by decide,
    index_parse_rust_usize.2 "18446744073709551616" (by decide) (by decide)⟩

/-- C2: Stale filtering — when the record stored at an index has a path that
no longer exists on the filesystem, `Store::file` (and therefore `get`)
returns nothing, the store is left untouched by the lookup (the record stays
in the persisted table), and the listing still shows the entry. -/
theorem stale_path_filtered_not_pruned (s : Store) (cwd : String)
    (fsExists : String → Bool) (i : Nat) (f : File) (args : List String)
    (hlook : lookupKey (s.projectTable cwd).files i = some f)
    (hstale : fsExists f.path = false)
    (hidx : index args.head? = .ok i) :
    (s.file cwd fsExists i).1 = none ∧
    (s.file cwd fsExists i).2 = s ∧
    (i, f) ∈ ((s.file cwd fsExists i).2.projectTable cwd).files ∧
    renderLine (i, f) ∈ (listEntries ((s.file cwd fsExists i).2.projectTable cwd)).map renderLine ∧
    get .validate args cwd fsExists (.stored s) = .ok {} := by
  have hfst : (s.file cwd fsExists i).1 = none := by
    simp [Store.file, hlook, Option.filter, hstale]
  have hsnd : (s.file cwd fsExists i).2 = s := by
    simp only [Store.file]
    exact s.upsertProject_eq_of_lookup cwd _ (s.lookup_some_of_table_entry cwd i f hlook)
  have hmem : (i, f) ∈ (s.projectTable cwd).files := lookupKey_mem hlook
  refine ⟨hfst, hsnd, ?_, ?_, ?_⟩
  · rw [hsnd]; exact hmem
  · rw [hsnd]
    exact List.mem_map_of_mem renderLine
      (((listEntries_perm (s.projectTable cwd)).mem_iff).mpr hmem)
  · simp [get, hidx, Store.«open», hfst]

/-- Witness for C2: a one-record store whose path never exists on disk. -/
theorem stale_path_filtered_not_pruned_witness :
    lookupKey ((⟨[("/p", ⟨[(1, ⟨"a", [⟨0, 1⟩]⟩)]⟩)]⟩ : Store).projectTable "/p").files 1 =
      some ⟨"a", [⟨0, 1⟩]⟩ ∧
    (fun (_ : String) => false) "a" = false ∧
    index (["1"].head?) = .ok 1 ∧
    ((⟨[("/p", ⟨[(1, ⟨"a", [⟨0, 1⟩]⟩)]⟩)]⟩ : Store).file "/p" (fun _ => false) 1).1 = none ∧
    ((⟨[("/p", ⟨[(1, ⟨"a", [⟨0, 1⟩]⟩)]⟩)]⟩ : Store).file "/p" (fun _ => false) 1).2 =
      ⟨[("/p", ⟨[(1, ⟨"a", [⟨0, 1⟩]⟩)]⟩)]⟩ ∧
    get .validate ["1"] "/p" (fun _ => false) (.stored ⟨[("/p", ⟨[(1, ⟨"a", [⟨0, 1⟩]⟩)]⟩)]⟩) =
      .ok {} := by
  have h := stale_path_filtered_not_pruned ⟨[("/p", ⟨[(1, ⟨"a", [⟨0, 1⟩]⟩)]⟩)]⟩ "/p"
    (fun _ => false) 1 ⟨"a", [⟨0, 1⟩]⟩ ["1"] (by decide) rfl (by decide)
  exact ⟨by decide, rfl, by decide, h.1, h.2.1, h.2.2.2.2⟩

/-- C7: `list()` — the rendered listing is exactly the current project's
(index, record) pairs sorted by index ascending, rendered one line per entry
as `{index}. {path}` followed by a newline, the same output for every
insertion order of the table, and the command performs no save. -/
theorem list_sorted_no_write (s₁ s₂ : Store) (cwd : String)
    (hperm : ((s₁.projectTable cwd).files).Perm ((s₂.projectTable cwd).files))
    (hnd : (((s₁.projectTable cwd).files).map Prod.fst).Nodup) :
    listEntries (s₁.projectTable cwd) = listEntries (s₂.projectTable cwd) ∧
    (listEntries (s₁.projectTable cwd)).Perm (s₁.projectTable cwd).files ∧
    List.Sorted (fun a b => a.1 ≤ b.1) (listEntries (s₁.projectTable cwd)) ∧
    listContents cwd s₁ =
      ((listEntries (s₁.projectTable cwd)).map
        (fun e => renderLine e ++ "\n")).foldl (fun output line => output ++ line) "" ∧
    list .validate cwd (.stored s₁) = .ok { popup := some (listContents cwd s₁) } := by
  refine ⟨listEntries_eq_of_perm _ _ hperm hnd, listEntries_perm _, listEntries_sorted _, ?_, ?_⟩
  · simp [listContents, List.foldl_map]
  · simp [list, Store.«open»]

/-- Witness for C7: the same two-entry table in two insertion orders. -/
theorem list_sorted_no_write_witness :
    (((⟨[("/p", ⟨[(2, ⟨"b", [⟨0, 0⟩]⟩), (1, ⟨"a", [⟨0, 0⟩]⟩)]⟩)]⟩ : Store).projectTable
        "/p").files).Perm
      (((⟨[("/p", ⟨[(1, ⟨"a", [⟨0, 0⟩]⟩), (2, ⟨"b", [⟨0, 0⟩]⟩)]⟩)]⟩ : Store).projectTable
        "/p").files) ∧
    ((((⟨[("/p", ⟨[(2, ⟨"b", [⟨0, 0⟩]⟩), (1, ⟨"a", [⟨0, 0⟩]⟩)]⟩)]⟩ : Store).projectTable
        "/p").files).map Prod.fst).Nodup ∧
    listEntries ((⟨[("/p", ⟨[(2, ⟨"b", [⟨0, 0⟩]⟩), (1, ⟨"a", [⟨0, 0⟩]⟩)]⟩)]⟩ : Store).projectTable
        "/p") =
      listEntries ((⟨[("/p", ⟨[(1, ⟨"a", [⟨0, 0⟩]⟩), (2, ⟨"b", [⟨0, 0⟩]⟩)]⟩)]⟩ :
        Store).projectTable "/p") ∧
    list .validate "/p" (.stored ⟨[("/p", ⟨[(2, ⟨"b", [⟨0, 0⟩]⟩), (1, ⟨"a", [⟨0, 0⟩]⟩)]⟩)]⟩) =
      .ok { popup := some (listContents "/p"
        ⟨[("/p", ⟨[(2, ⟨"b", [⟨0, 0⟩]⟩), (1, ⟨"a", [⟨0, 0⟩]⟩)]⟩)]⟩) } := by
  refine ⟨List.Perm.swap _ _ _, by decide, ?_, ?_⟩
  · exact (list_sorted_no_write
      ⟨[("/p", ⟨[(2, ⟨"b", [⟨0, 0⟩]⟩), (1, ⟨"a", [⟨0, 0⟩]⟩)]⟩)]⟩
      ⟨[("/p", ⟨[(1, ⟨"a", [⟨0, 0⟩]⟩), (2, ⟨"b", [⟨0, 0⟩]⟩)]⟩)]⟩
      "/p" (List.Perm.swap _ _ _) (by decide)).1
  · exact (list_sorted_no_write
      ⟨[("/p", ⟨[(2, ⟨"b", [⟨0, 0⟩]⟩), (1, ⟨"a", [⟨0, 0⟩]⟩)]⟩)]⟩
      ⟨[("/p", ⟨[(1, ⟨"a", [⟨0, 0⟩]⟩), (2, ⟨"b", [⟨0, 0⟩]⟩)]⟩)]⟩
      "/p" (List.Perm.swap _ _ _) (by decide)).2.2.2.2

/-- C8: Project isolation — setting the same index (even the same relative
path) under two distinct working directories yields two independent records
in two distinct project tables; each lookup sees only its own root's record,
and the second set leaves every other root's table (in particular the first
root's) unaltered. -/
theorem project_isolation (s : Store) (cwd₁ cwd₂ : String) (i : Nat) (f₁ f₂ : File)
    (fsExists : String → Bool) (hne : cwd₁ ≠ cwd₂)
    (hfs₁ : fsExists f₁.path = true) (hfs₂ : fsExists f₂.path = true) :
    lookupKey (((s.set_file cwd₁ i f₁).set_file cwd₂ i f₂).projectTable cwd₁).files i =
      some f₁ ∧
    lookupKey (((s.set_file cwd₁ i f₁).set_file cwd₂ i f₂).projectTable cwd₂).files i =
      some f₂ ∧
    (((s.set_file cwd₁ i f₁).set_file cwd₂ i f₂).file cwd₁ fsExists i).1 = some f₁ ∧
    (((s.set_file cwd₁ i f₁).set_file cwd₂ i f₂).file cwd₂ fsExists i).1 = some f₂ ∧
    ∀ root, root ≠ cwd₂ →
      ((s.set_file cwd₁ i f₁).set_file cwd₂ i f₂).projectTable root =
        (s.set_file cwd₁ i f₁).projectTable root := by
  have h₁ : ((s.set_file cwd₁ i f₁).set_file cwd₂ i f₂).projectTable cwd₁ =
      ⟨insertKey (s.projectTable cwd₁).files i f₁⟩ := by
    rw [Store.set_file, Store.projectTable_modifyProject_ne _ _ _ _ hne,
      Store.set_file, Store.projectTable_modifyProject_self]
  have h₂ : ((s.set_file cwd₁ i f₁).set_file cwd₂ i f₂).projectTable cwd₂ =
      ⟨insertKey ((s.set_file cwd₁ i f₁).projectTable cwd₂).files i f₂⟩ := by
    rw [Store.set_file, Store.projectTable_modifyProject_self]
  have hl₁ : lookupKey (((s.set_file cwd₁ i f₁).set_file cwd₂ i f₂).projectTable cwd₁).files i =
      some f₁ := by
    rw [h₁]; exact lookupKey_insertKey_self _ _ _
  have hl₂ : lookupKey (((s.set_file cwd₁ i f₁).set_file cwd₂ i f₂).projectTable cwd₂).files i =
      some f₂ := by
    rw [h₂]; exact lookupKey_insertKey_self _ _ _
  refine ⟨hl₁, hl₂, ?_, ?_, ?_⟩
  · simp [Store.file, hl₁, Option.filter, hfs₁]
  · simp [Store.file, hl₂, Option.filter, hfs₂]
  · intro root hroot
    exact Store.projectTable_modifyProject_ne _ _ _ _ hroot

/-- Witness for C8: the same relative path `a.txt`, same index 1, under the
two roots `/p` and `/q`. -/
theorem project_isolation_witness :
    ("/p" : String) ≠ "/q" ∧
    (fun (_ : String) => true) (File.path ⟨"a.txt", [⟨0, 1⟩]⟩) = true ∧
    (fun (_ : String) => true) (File.path ⟨"a.txt", [⟨2, 3⟩]⟩) = true ∧
    lookupKey ((((⟨[]⟩ : Store).set_file "/p" 1 ⟨"a.txt", [⟨0, 1⟩]⟩).set_file "/q" 1
        ⟨"a.txt", [⟨2, 3⟩]⟩).projectTable "/p").files 1 = some ⟨"a.txt", [⟨0, 1⟩]⟩ ∧
    lookupKey ((((⟨[]⟩ : Store).set_file "/p" 1 ⟨"a.txt", [⟨0, 1⟩]⟩).set_file "/q" 1
        ⟨"a.txt", [⟨2, 3⟩]⟩).projectTable "/q").files 1 = some ⟨"a.txt", [⟨2, 3⟩]⟩ := by
  refine ⟨by decide, rfl, rfl, ?_⟩
  have h := project_isolation ⟨[]⟩ "/p" "/q" 1 ⟨"a.txt", [⟨0, 1⟩]⟩ ⟨"a.txt", [⟨2, 3⟩]⟩
    (fun _ => true) (by decide) rfl rfl
  exact ⟨h.1, h.2.1⟩

theorem updateFirst_eq_of_nomatch (files : List (Nat × File)) (path : String)
    (sel : Selection) (h : ∀ e ∈ files, (Prod.snd e).path ≠ path) :
    updateFirst files path sel = files := by
  induction files with
  | nil => rfl
  | cons e t ih =>
    obtain ⟨i, f⟩ := e
    rw [updateFirst]
    rw [if_neg (h (i, f) (List.mem_cons_self _ _))]
    rw [ih (fun e he => h e (List.mem_cons_of_mem _ he))]

/-- C4: Argument validation on a `Validate` event — a missing index argument
fails with "index not provided", a non-integer index argument fails with
"index must be an integer" (for `set`, `get` and `remove` alike), and `set`
on a document with no backing path fails with an error and stores nothing. -/
theorem argument_validation (a : String) (args : List String) (doc : Document)
    (cwd : String) (fsExists : String → Bool) (b : BackingFile) (i : Nat) (sel : Selection)
    (hbad : parseUsize a = none) (hidx : index args.head? = .ok i) :
    set .validate [] doc cwd b = .error "index not provided" ∧
    get .validate [] cwd fsExists b = .error "index not provided" ∧
    remove .validate [] cwd b = .error "index not provided" ∧
    set .validate [a] doc cwd b = .error "index must be an integer" ∧
    get .validate [a] cwd fsExists b = .error "index must be an integer" ∧
    remove .validate [a] cwd b = .error "index must be an integer" ∧
    set .validate args ⟨none, sel⟩ cwd b = .error "current document has no path" := by
  refine ⟨?_, ?_, ?_, ?_, ?_, ?_, ?_⟩
  · simp [set, index]
  · simp [get, index]
  · simp [remove, index]
  · simp [set, index, hbad]
  · simp [get, index, hbad]
  · simp [remove, index, hbad]
  · simp [set, hidx]

/-- Witness for C4 with the non-numeric argument "abc" and the valid
argument "2". -/
theorem argument_validation_witness :
    parseUsize "abc" = none ∧
    index (["2"].head?) = .ok 2 ∧
    set .validate [] ⟨some "/d/f", ⟨[⟨0, 0⟩], 0⟩⟩ "/d" .absent = .error "index not provided" ∧
    set .validate ["abc"] ⟨some "/d/f", ⟨[⟨0, 0⟩], 0⟩⟩ "/d" .absent =
      .error "index must be an integer" ∧
    remove .validate ["abc"] "/d" .absent = .error "index must be an integer" ∧
    set .validate ["2"] ⟨none, ⟨[⟨0, 0⟩], 0⟩⟩ "/d" .absent =
      .error "current document has no path" := by
  have h := argument_validation "abc" ["2"] ⟨some "/d/f", ⟨[⟨0, 0⟩], 0⟩⟩ "/d"
    (fun _ => true) .absent 2 ⟨[⟨0, 0⟩], 0⟩ (by decide) (by decide)
  exact ⟨by decide, by decide, h.1, h.2.2.2.1, h.2.2.2.2.2.1, h.2.2.2.2.2.2⟩

/-- C5 (counterexample): with an empty persisted store — so no record of the
current project's table matches the active document's path — `update()` does
not leave the persisted store unchanged: the saved store contains a new empty
project table for the current working directory, a change to the backing
file's logical state. -/
theorem update_no_match_counterexample :
    update .validate ⟨some "/p/a", ⟨[⟨0, 0⟩], 0⟩⟩ "/p" (.stored ⟨[]⟩) =
      .ok { saved := some ⟨[("/p", ⟨[]⟩)]⟩ } ∧
    (⟨[("/p", ⟨[]⟩)]⟩ : Store) ≠ (⟨[]⟩ : Store) :=
  ⟨rfl, by decide⟩

/-- C5 (amended): when no record of the current project's table has a path
equal to the active document's normalized path, `update()` modifies no
project table's contents — every root's table reads back unchanged — and the
store it re-saves is exactly the original store whenever the current working
directory already has a table; when it does not, the sole change is the
insertion of an empty table for it. -/
theorem update_no_match_preserves_tables (s : Store) (cwd p : String) (sel : Selection)
    (hnomatch : ∀ e ∈ (s.projectTable cwd).files,
      (Prod.snd e).path ≠ get_relative_path cwd p) :
    update .validate ⟨some p, sel⟩ cwd (.stored s) =
      .ok { saved := some (s.upsertProject cwd) } ∧
    (∀ root, (s.upsertProject cwd).projectTable root = s.projectTable root) ∧
    (∀ pr, lookupKey s.projects cwd = some pr → s.upsertProject cwd = s) := by
  have hup : updateFirst (s.projectTable cwd).files (get_relative_path cwd p) sel =
      (s.projectTable cwd).files :=
    updateFirst_eq_of_nomatch _ _ _ hnomatch
  refine ⟨?_, ?_, ?_⟩
  · simp [update, Store.«open», Store.modifyProject, Store.upsertProject, hup]
  · intro root
    by_cases hroot : root = cwd
    · subst hroot
      exact s.projectTable_modifyProject_self root (fun pr => pr)
    · exact s.projectTable_modifyProject_ne cwd root _ hroot
  · intro pr hpr
    exact s.upsertProject_eq_of_lookup cwd pr hpr

/-- Witness for C5's amended theorem: a store whose only record under `/p` is
for path `b`, while the active document normalizes to path `a`. -/
theorem update_no_match_preserves_tables_witness :
    (∀ e ∈ ((⟨[("/p", ⟨[(1, ⟨"b", [⟨0, 0⟩]⟩)]⟩)]⟩ : Store).projectTable "/p").files,
      (Prod.snd e).path ≠ get_relative_path "/p" "/p/a") ∧
    update .validate ⟨some "/p/a", ⟨[⟨0, 0⟩], 0⟩⟩ "/p"
        (.stored ⟨[("/p", ⟨[(1, ⟨"b", [⟨0, 0⟩]⟩)]⟩)]⟩) =
      .ok { saved := some ((⟨[("/p", ⟨[(1, ⟨"b", [⟨0, 0⟩]⟩)]⟩)]⟩ : Store).upsertProject "/p") } ∧
    (⟨[("/p", ⟨[(1, ⟨"b", [⟨0, 0⟩]⟩)]⟩)]⟩ : Store).upsertProject "/p" =
      ⟨[("/p", ⟨[(1, ⟨"b", [⟨0, 0⟩]⟩)]⟩)]⟩ := by
  have h := update_no_match_preserves_tables ⟨[("/p", ⟨[(1, ⟨"b", [⟨0, 0⟩]⟩)]⟩)]⟩ "/p" "/p/a"
    ⟨[⟨0, 0⟩], 0⟩ (by decide)
  exact ⟨by decide, h.1, h.2.2 ⟨[(1, ⟨"b", [⟨0, 0⟩]⟩)]⟩ (by decide)⟩

/-- C6: `remove(index)` with a valid index — when a record exists at the
index it is removed and returned, the store is saved without it, and the
status names the removed path; when none exists, the non-fatal user-visible
error `No file assigned to #{index}` is reported and no save occurs. -/
theorem remove_semantics (s : Store) (cwd : String) (i : Nat) (args : List String)
    (hidx : index args.head? = .ok i)
    (hnd : (((s.projectTable cwd).files).map Prod.fst).Nodup) :
    (∀ f, lookupKey (s.projectTable cwd).files i = some f →
      remove .validate args cwd (.stored s) =
        .ok { status := some ("'" ++ f.path ++ "' removed from #" ++ toString i),
              saved := some (s.modifyProject cwd (fun pr => ⟨eraseKey pr.files i⟩)) } ∧
      lookupKey ((s.modifyProject cwd (fun pr => ⟨eraseKey pr.files i⟩)).projectTable cwd).files
        i = none) ∧
    (lookupKey (s.projectTable cwd).files i = none →
      remove .validate args cwd (.stored s) =
        .ok { errMsg := some ("No file assigned to #" ++ toString i) }) := by
  constructor
  · intro f hf
    constructor
    · simp [remove, hidx, Store.«open», Store.remove_file, hf]
    · rw [s.projectTable_modifyProject_self cwd (fun pr => ⟨eraseKey pr.files i⟩)]
      exact lookupKey_eraseKey_self _ _ hnd
  · intro hnone
    simp [remove, hidx, Store.«open», Store.remove_file, hnone]

/-- Witness for C6 removing the sole record at index 1. -/
theorem remove_semantics_witness :
    index (["1"].head?) = .ok 1 ∧
    ((((⟨[("/p", ⟨[(1, ⟨"a", [⟨0, 1⟩]⟩)]⟩)]⟩ : Store).projectTable "/p").files).map
      Prod.fst).Nodup ∧
    lookupKey (((⟨[("/p", ⟨[(1, ⟨"a", [⟨0, 1⟩]⟩)]⟩)]⟩ : Store).projectTable "/p").files) 1 =
      some ⟨"a", [⟨0, 1⟩]⟩ ∧
    remove .validate ["1"] "/p" (.stored ⟨[("/p", ⟨[(1, ⟨"a", [⟨0, 1⟩]⟩)]⟩)]⟩) =
      .ok { status := some ("'" ++ "a" ++ "' removed from #" ++ toString 1),
            saved := some ((⟨[("/p", ⟨[(1, ⟨"a", [⟨0, 1⟩]⟩)]⟩)]⟩ : Store).modifyProject "/p"
              (fun pr => ⟨eraseKey pr.files 1⟩)) } := by
  have h := remove_semantics ⟨[("/p", ⟨[(1, ⟨"a", [⟨0, 1⟩]⟩)]⟩)]⟩ "/p" 1 ["1"]
    (by decide) (by decide)
  exact ⟨by decide, by decide, by decide, (h.1 ⟨"a", [⟨0, 1⟩]⟩ (by decide)).1⟩

end Harpoon
